import Mathlib

/-!
Shallow embedding of `inventory_app.py`, a single linear pandas pipeline:
file ingestion, column selection, numeric coercion, group-by aggregation,
a left join, derived-column arithmetic, conditional row styling.

Modelling conventions:
* Identifier-valued cells (品名 / SKU / 国家) are drawn from an arbitrary
  linearly ordered type `K` (pandas compares such cell values as strings,
  i.e. through a linear order; the pipeline only uses equality and the
  group-key sort on them).
* Numeric-expected cells are modelled by `Cell`: a cell either has a
  numeric interpretation, is non-numeric text, or is missing (NaN).
* Exact rationals `ℚ` stand for the float arithmetic of the source;
  `np.round` ties-to-even semantics are made explicit.
* The multi-column `DataFrame.sort_values` of pandas (line 97) and the
  group-key sort of `groupby(sort=True)` are stable sorts by a total
  preorder; a stable sort is extensionally unique, so both are embedded
  as `List.insertionSort`, which is stable.
-/

/-- One cell of a numeric-expected column, as classified by
`pd.to_numeric(..., errors='coerce')`: a value with a numeric
interpretation, non-numeric text, or a missing cell (NaN). -/
inductive Cell where
  | num (q : ℚ)
  | nonNumeric
  | missing
deriving DecidableEq

/-- `pd.to_numeric(x, errors='coerce')` on one cell: numeric cells keep
their value, everything else becomes NaN (`none`). -/
def toNumericCoerce : Cell → Option ℚ
  | .num q => some q
  | .nonNumeric => none
  | .missing => none

/-- Lines 53 and 63–64: `pd.to_numeric(..., errors='coerce').fillna(0)`
on one cell. -/
def coerce (c : Cell) : ℚ := (toNumericCoerce c).getD 0

/-- One row of the sales table after the projection to
`['品名', 'SKU', '国家', '销量']` (line 52). Fields in that column order. -/
structure SalesRow (K : Type) where
  name : K
  sku : K
  country : K
  qty : Cell
deriving DecidableEq

/-- One row of the stock table after the projection to
`['品名', 'SKU', '国家（地区）', 'FBA库存', '入库中', 'FBA在途']` (line 61). -/
structure StockRow (K : Type) where
  name : K
  sku : K
  country : K
  fba : Cell
  inbound : Cell
  transit : Cell
deriving DecidableEq

/-- One row of `df_sales_grouped` (lines 55–57): key (国家, SKU), with the
summed 销量 renamed 过去30天总销量. -/
structure SalesGroup (K : Type) where
  country : K
  sku : K
  sales30 : ℚ
deriving DecidableEq

/-- One row of `df_inv_grouped` (lines 66–71): key (国家（地区）, 品名, SKU)
with summed FBA库存 and summed 在途总计, the country column renamed 国家. -/
structure StockGroup (K : Type) where
  country : K
  name : K
  sku : K
  fba : ℚ
  transitTotal : ℚ
deriving DecidableEq

/-- One row of `final_df` right after the merge and `fillna(0)`
(lines 74–75). -/
structure MergedRow (K : Type) where
  country : K
  name : K
  sku : K
  fba : ℚ
  transitTotal : ℚ
  sales30 : ℚ
deriving DecidableEq

/-- One row of the displayed/sorted `final_df` (lines 79–97): the four
count columns cast to int, 未来30天预估销量 as int, 库销比 kept as a
one-decimal number. -/
structure SummaryRow (K : Type) where
  country : K
  name : K
  sku : K
  fba : ℤ
  transitTotal : ℤ
  sales30 : ℤ
  forecast : ℤ
  ratio : ℚ
deriving DecidableEq

/-- Group key of the sales aggregation: `(国家, SKU)` (line 55). -/
def salesKey {K : Type} (r : SalesRow K) : K × K := (r.country, r.sku)

/-- Group key of the stock aggregation:
`(国家（地区）, 品名, SKU)` (line 68). -/
def stockKey {K : Type} (r : StockRow K) : K × K × K := (r.country, r.name, r.sku)

/-- Lexicographic order on sales group keys, as `groupby(sort=True)`
orders them. -/
def key2Ord {K : Type} [LinearOrder K] (a b : K × K) : Prop :=
  a.1 < b.1 ∨ (a.1 = b.1 ∧ a.2 ≤ b.2)

instance {K : Type} [LinearOrder K] : DecidableRel (key2Ord (K := K)) :=
  fun a b => inferInstanceAs (Decidable (a.1 < b.1 ∨ (a.1 = b.1 ∧ a.2 ≤ b.2)))

/-- Lexicographic order on stock group keys. -/
def key3Ord {K : Type} [LinearOrder K] (a b : K × K × K) : Prop :=
  a.1 < b.1 ∨ (a.1 = b.1 ∧ (a.2.1 < b.2.1 ∨ (a.2.1 = b.2.1 ∧ a.2.2 ≤ b.2.2)))

instance {K : Type} [LinearOrder K] : DecidableRel (key3Ord (K := K)) :=
  fun a b => inferInstanceAs
    (Decidable (a.1 < b.1 ∨ (a.1 = b.1 ∧ (a.2.1 < b.2.1 ∨ (a.2.1 = b.2.1 ∧ a.2.2 ≤ b.2.2)))))

/-- The (key, coerced 销量) pairs the sales groupby aggregates over
(lines 52–55). -/
def salesProj {K : Type} (rows : List (SalesRow K)) : List ((K × K) × ℚ) :=
  rows.map fun r => (salesKey r, coerce r.qty)

/-- Aggregation of the projected sales rows: one group per distinct key,
keys in sorted order, each group summing its 销量 values. -/
def salesAggFrom {K : Type} [LinearOrder K] (proj : List ((K × K) × ℚ)) :
    List (SalesGroup K) :=
  (List.insertionSort key2Ord (proj.map Prod.fst).dedup).map fun k =>
    ⟨k.1, k.2, ((proj.filter fun p => decide (p.1 = k)).map Prod.snd).sum⟩

/-- Lines 51–57: `df_sales_raw[sales_cols]`, numeric coercion of 销量,
`groupby(['国家','SKU']).agg({'销量': 'sum'})`, rename to 过去30天总销量. -/
def salesAgg {K : Type} [LinearOrder K] (rows : List (SalesRow K)) :
    List (SalesGroup K) :=
  salesAggFrom (salesProj rows)

/-- The (key, (coerced FBA库存, 在途总计)) pairs the stock groupby
aggregates over; 在途总计 = 入库中 + FBA在途 per row (lines 60–66). -/
def stockProj {K : Type} (rows : List (StockRow K)) :
    List ((K × K × K) × (ℚ × ℚ)) :=
  rows.map fun r => (stockKey r, (coerce r.fba, coerce r.inbound + coerce r.transit))

/-- Lines 68–71: `groupby(['国家（地区）','品名','SKU'])` summing FBA库存
and 在途总计, with the country column renamed 国家. -/
def stockAgg {K : Type} [LinearOrder K] (rows : List (StockRow K)) :
    List (StockGroup K) :=
  (List.insertionSort key3Ord ((stockProj rows).map Prod.fst).dedup).map fun k =>
    ⟨k.1, k.2.1, k.2.2,
      (((stockProj rows).filter fun p => decide (p.1 = k)).map fun p => p.2.1).sum,
      (((stockProj rows).filter fun p => decide (p.1 = k)).map fun p => p.2.2).sum⟩

/-- Lines 74–75: `pd.merge(df_inv_grouped, df_sales_grouped,
on=['国家','SKU'], how='left')` followed by `fillna(0)` on 过去30天总销量.
The stock aggregation is the left table, so exactly its rows survive; the
sales aggregation has unique keys, so each left row matches at most one
sales row (`find?`). `mergeRow` builds the output row for one left row. -/
def mergeRow {K : Type} [LinearOrder K] (salesA : List (SalesGroup K))
    (g : StockGroup K) : MergedRow K :=
  ⟨g.country, g.name, g.sku, g.fba, g.transitTotal,
    match salesA.find? fun s => decide (s.country = g.country ∧ s.sku = g.sku) with
    | some s => s.sales30
    | none => 0⟩

/-- The left join, one output row per stock-aggregation row, in order. -/
def mergeLeft {K : Type} [LinearOrder K] (stockA : List (StockGroup K))
    (salesA : List (SalesGroup K)) : List (MergedRow K) :=
  stockA.map (mergeRow salesA)

/-- `np.round` / `Series.round(0)`: round to the nearest integer, ties to
even (banker's rounding). -/
def roundHalfEven (q : ℚ) : ℤ :=
  if q - ⌊q⌋ < 1 / 2 then ⌊q⌋
  else if 1 / 2 < q - ⌊q⌋ then ⌊q⌋ + 1
  else if ⌊q⌋ % 2 = 0 then ⌊q⌋ else ⌊q⌋ + 1

/-- `Series.round(1)` (line 89): round to one decimal place, ties to
even. -/
def round1 (q : ℚ) : ℚ := (roundHalfEven (10 * q) : ℚ) / 10

/-- `.astype(int)` on a float column (lines 79, 93): truncation toward
zero. -/
def truncInt (q : ℚ) : ℤ := q.num.tdiv q.den

/-- Lines 79–93 applied to one merged row: 未来30天预估销量 =
`(sales * growth_factor).round(0).astype(int)`; 库销比 =
`np.where(sales > 0, (fba + transit) / sales, 99.0)` then `round(1)`;
finally the four count columns are cast to int. -/
def scoreRow {K : Type} (growth : ℚ) (m : MergedRow K) : SummaryRow K :=
  ⟨m.country, m.name, m.sku, truncInt m.fba, truncInt m.transitTotal,
    truncInt m.sales30, roundHalfEven (m.sales30 * growth),
    round1 (if 0 < m.sales30 then (m.fba + m.transitTotal) / m.sales30 else 99)⟩

/-- The composite sort key of line 97: 库销比 ascending, then
过去30天总销量 descending. -/
def rowOrd {K : Type} (a b : SummaryRow K) : Prop :=
  a.ratio < b.ratio ∨ (a.ratio = b.ratio ∧ b.sales30 ≤ a.sales30)

instance {K : Type} : DecidableRel (rowOrd (K := K)) :=
  fun a b =>
    inferInstanceAs (Decidable (a.ratio < b.ratio ∨ (a.ratio = b.ratio ∧ b.sales30 ≤ a.sales30)))

instance {K : Type} : IsTotal (SummaryRow K) rowOrd where
  total a b := by
    rcases lt_trichotomy a.ratio b.ratio with h | h | h
    · exact Or.inl (Or.inl h)
    · rcases le_total b.sales30 a.sales30 with hs | hs
      · exact Or.inl (Or.inr ⟨h, hs⟩)
      · exact Or.inr (Or.inr ⟨h.symm, hs⟩)
    · exact Or.inr (Or.inl h)

instance {K : Type} : IsTrans (SummaryRow K) rowOrd where
  trans a b c hab hbc := by
    rcases hab with hab | ⟨hab, hab'⟩
    · rcases hbc with hbc | ⟨hbc, _⟩
      · exact Or.inl (hab.trans hbc)
      · exact Or.inl (hbc ▸ hab)
    · rcases hbc with hbc | ⟨hbc, hbc'⟩
      · exact Or.inl (hab ▸ hbc)
      · exact Or.inr ⟨hab.trans hbc, hbc'.trans hab'⟩

/-- The whole pipeline from the two projected input tables to the sorted
`final_df` of line 97 (the `display_cols` selection only reorders
columns, which the row structure already fixes). -/
def finalTable {K : Type} [LinearOrder K] (growth : ℚ)
    (salesRows : List (SalesRow K)) (stockRows : List (StockRow K)) :
    List (SummaryRow K) :=
  List.insertionSort rowOrd
    ((mergeLeft (stockAgg stockRows) (salesAgg salesRows)).map (scoreRow growth))

/-- The alert style string of line 36. -/
def hlStyle : String := "background-color: #FF0000; color: #FFFF00; font-weight: bold;"

/-- Lines 31–42: `highlight_low_ratio` returns one style per cell of the
row; `len(row)` is the number of display columns, 8. -/
def highlight_low_ratio {K : Type} (r : SummaryRow K) : List String :=
  if r.ratio < 2 ∧ 0 < r.sales30 then List.replicate 8 hlStyle
  else List.replicate 8 ""

/-- A raw uploaded file: its name and byte content. -/
structure UploadedFile where
  name : String
  bytes : List ℕ

/-- Python `str.endswith`: a character-level suffix test (stated on the
character lists of the two strings). -/
def endswith (s suf : String) : Bool := suf.data.isSuffixOf s.data

/-- The encoding fallback chain of line 24, in source order. -/
def encList : List String := ["utf-8", "gbk", "utf-16"]

/-- First non-`none` result of a list of attempts, or `none`: the
`try/except continue` loop of lines 24–28. -/
def firstSuccess {α : Type} : List (Option α) → Option α
  | [] => none
  | some a :: _ => some a
  | none :: rest => firstSuccess rest

/-- Lines 18–28, `read_file`. `readExcel` abstracts `pd.read_excel`;
`readCsv enc bytes` abstracts `pd.read_csv(io.BytesIO(bytes),
encoding=enc)`, returning `none` exactly when the Python call raises
(the bare `except` swallows any error). -/
def read_file {α : Type} (readExcel : List ℕ → α)
    (readCsv : String → List ℕ → Option α) (file : Option UploadedFile) :
    Option α :=
  match file with
  | none => none
  | some f =>
      if endswith f.name ".xlsx" || endswith f.name ".xls" then
        some (readExcel f.bytes)
      else
        firstSuccess (encList.map fun enc => readCsv enc f.bytes)

/-! ### Arithmetic helper lemmas -/

theorem roundHalfEven_intCast (n : ℤ) : roundHalfEven (n : ℚ) = n := by
  simp [roundHalfEven, Int.floor_intCast]

theorem round1_intCast (n : ℤ) : round1 (n : ℚ) = n := by
  have h : (10 : ℚ) * n = ((10 * n : ℤ) : ℚ) := by push_cast; ring
  rw [round1, h, roundHalfEven_intCast]
  push_cast
  ring

theorem round1_99 : round1 (99 : ℚ) = 99 := by
  have h : (99 : ℚ) = ((99 : ℤ) : ℚ) := by norm_num
  rw [h, round1_intCast]

theorem roundHalfEven_add_half (k : ℤ) :
    roundHalfEven ((k : ℚ) + 1 / 2) = if k % 2 = 0 then k else k + 1 := by
  have h0 : ⌊(1 / 2 : ℚ)⌋ = 0 := by norm_num [Int.floor_eq_iff]
  have hf : ⌊(k : ℚ) + 1 / 2⌋ = k := by
    rw [add_comm, Int.floor_add_int, h0, zero_add]
  have hsub : (k : ℚ) + 1 / 2 - k = 1 / 2 := by ring
  rw [roundHalfEven, hf, hsub]
  norm_num

theorem truncInt_intCast (n : ℤ) : truncInt (n : ℚ) = n := by
  simp [truncInt, Rat.num_intCast, Rat.den_intCast]

theorem truncInt_zero : truncInt (0 : ℚ) = 0 := by
  have h := truncInt_intCast 0
  simpa using h

theorem coerce_nonneg (c : Cell) (h : ∀ q, c = Cell.num q → 0 ≤ q) :
    0 ≤ coerce c := by
  cases c with
  | num q => exact h q rfl
  | nonNumeric => simp [coerce, toNumericCoerce]
  | missing => simp [coerce, toNumericCoerce]

/-! ### Claim theorems -/

/-- C2: every output row of the final table is the scoring of a merged
row m, and its 库销比 is the sentinel 99.0 when m's 过去30天总销量 is 0,
and `round((FBA库存 + 在途总计) / 过去30天总销量, 1)` when it is positive
(line 84 tests the sales value before the integer cast of line 93). -/
theorem C2_ratio_formula {K : Type} [LinearOrder K] (g : ℚ)
    (ss : List (SalesRow K)) (st : List (StockRow K)) :
    ∀ r ∈ finalTable g ss st, ∃ m ∈ mergeLeft (stockAgg st) (salesAgg ss),
      scoreRow g m = r ∧
      (m.sales30 = 0 → r.ratio = 99) ∧
      (0 < m.sales30 → r.ratio = round1 ((m.fba + m.transitTotal) / m.sales30)) := by
  intro r hr
  rw [finalTable, List.mem_insertionSort, List.mem_map] at hr
  obtain ⟨m, hm, rfl⟩ := hr
  refine ⟨m, hm, rfl, ?_, ?_⟩
  · intro h
    have hneg : ¬ (0 : ℚ) < m.sales30 := by rw [h]; exact lt_irrefl 0
    simp only [scoreRow, if_neg hneg]
    exact round1_99
  · intro h
    simp only [scoreRow, if_pos h]

/-- C2 witness: the spec's end-to-end example (sales 10, FBA 15,
in-transit 5) produces the output row with ratio (15+5)/10 = 2.0. -/
theorem C2_ratio_formula_witness :
    ∃ m ∈ mergeLeft (stockAgg (K := ℕ) [⟨2, 3, 4, Cell.num 15, Cell.num 0, Cell.num 5⟩])
        (salesAgg (K := ℕ) [⟨2, 3, 4, Cell.num 10⟩]),
      scoreRow 1 m = ⟨4, 2, 3, 15, 5, 10, 10, 2⟩ ∧
      (m.sales30 = 0 → (⟨4, 2, 3, 15, 5, 10, 10, 2⟩ : SummaryRow ℕ).ratio = 99) ∧
      (0 < m.sales30 → (⟨4, 2, 3, 15, 5, 10, 10, 2⟩ : SummaryRow ℕ).ratio =
        round1 ((m.fba + m.transitTotal) / m.sales30)) :=
  C2_ratio_formula 1 [⟨2, 3, 4, Cell.num 10⟩]
    [⟨2, 3, 4, Cell.num 15, Cell.num 0, Cell.num 5⟩] ⟨4, 2, 3, 15, 5, 10, 10, 2⟩
    (by norm_num [finalTable, mergeLeft, mergeRow, stockAgg, stockProj, stockKey,
      salesAgg, salesAggFrom, salesProj, salesKey, scoreRow, coerce, toNumericCoerce,
      key2Ord, key3Ord, rowOrd, List.insertionSort, List.orderedInsert,
      List.dedup_cons_of_not_mem, truncInt, roundHalfEven, round1, List.filter,
      List.find?])

/-- C3: a summary row gets the alert style on every one of its 8 cells
iff 库销比 < 2 and 过去30天总销量 > 0; a row whose ratio is exactly 2, or
whose sales are 0, gets the empty style on every cell. -/
theorem C3_highlight_iff {K : Type} (r : SummaryRow K) :
    (highlight_low_ratio r = List.replicate 8 hlStyle ↔
      r.ratio < 2 ∧ 0 < r.sales30) ∧
    (r.ratio = 2 → highlight_low_ratio r = List.replicate 8 "") ∧
    (r.sales30 = 0 → highlight_low_ratio r = List.replicate 8 "") := by
  have hne : List.replicate 8 ("" : String) ≠ List.replicate 8 hlStyle := by decide
  refine ⟨⟨?_, ?_⟩, ?_, ?_⟩
  · intro h
    by_cases hc : r.ratio < 2 ∧ 0 < r.sales30
    · exact hc
    · rw [highlight_low_ratio, if_neg hc] at h
      exact absurd h hne
  · intro hc
    rw [highlight_low_ratio, if_pos hc]
  · intro h2
    rw [highlight_low_ratio, if_neg]
    rintro ⟨hl, -⟩
    rw [h2] at hl
    exact lt_irrefl 2 hl
  · intro h0
    rw [highlight_low_ratio, if_neg]
    rintro ⟨-, hs⟩
    rw [h0] at hs
    exact lt_irrefl 0 hs

/-- C3 witness: ratio 1 with sales 10 is highlighted; ratio exactly 2
with sales 10 is not. -/
theorem C3_highlight_iff_witness :
    highlight_low_ratio (K := ℕ) ⟨1, 2, 3, 10, 0, 10, 10, 1⟩ =
      List.replicate 8 hlStyle ∧
    highlight_low_ratio (K := ℕ) ⟨1, 2, 3, 20, 0, 10, 10, 2⟩ =
      List.replicate 8 "" :=
  ⟨(C3_highlight_iff _).1.mpr ⟨by norm_num, by norm_num⟩,
   (C3_highlight_iff _).2.1 rfl⟩

/-- C4: every output row's 未来30天预估销量 is its merged row's
过去30天总销量 × growth factor rounded to the nearest integer; with
growth factor 1 an integer-valued sales total is reproduced exactly;
and the tie-break of `roundHalfEven` is to the even neighbour
(banker's rounding). -/
theorem C4_forecast_rounding {K : Type} [LinearOrder K] (g : ℚ)
    (ss : List (SalesRow K)) (st : List (StockRow K)) :
    (∀ r ∈ finalTable g ss st, ∃ m ∈ mergeLeft (stockAgg st) (salesAgg ss),
      scoreRow g m = r ∧ r.forecast = roundHalfEven (m.sales30 * g) ∧
      (g = 1 → ∀ n : ℤ, m.sales30 = (n : ℚ) → r.forecast = n)) ∧
    (∀ k : ℤ, roundHalfEven ((k : ℚ) + 1 / 2) = if k % 2 = 0 then k else k + 1) := by
  constructor
  · intro r hr
    rw [finalTable, List.mem_insertionSort, List.mem_map] at hr
    obtain ⟨m, hm, rfl⟩ := hr
    refine ⟨m, hm, rfl, rfl, ?_⟩
    intro hg n h
    show roundHalfEven (m.sales30 * g) = n
    rw [hg, mul_one, h, roundHalfEven_intCast]
  · exact roundHalfEven_add_half

/-- C4 witness: in the end-to-end example with growth 1 the forecast of
the output row is exactly the integer sales total 10, and the tie 3.5
rounds to the even neighbour 4. -/
theorem C4_forecast_rounding_witness :
    (∃ m ∈ mergeLeft (stockAgg (K := ℕ) [⟨2, 3, 4, Cell.num 15, Cell.num 0, Cell.num 5⟩])
        (salesAgg (K := ℕ) [⟨2, 3, 4, Cell.num 10⟩]),
      scoreRow 1 m = ⟨4, 2, 3, 15, 5, 10, 10, 2⟩ ∧
      (⟨4, 2, 3, 15, 5, 10, 10, 2⟩ : SummaryRow ℕ).forecast =
        roundHalfEven (m.sales30 * 1) ∧
      ((1 : ℚ) = 1 → ∀ n : ℤ, m.sales30 = (n : ℚ) →
        (⟨4, 2, 3, 15, 5, 10, 10, 2⟩ : SummaryRow ℕ).forecast = n)) ∧
    roundHalfEven (((3 : ℤ) : ℚ) + 1 / 2) = 4 := by
  constructor
  · exact (C4_forecast_rounding 1 [⟨2, 3, 4, Cell.num 10⟩]
      [⟨2, 3, 4, Cell.num 15, Cell.num 0, Cell.num 5⟩]).1 ⟨4, 2, 3, 15, 5, 10, 10, 2⟩
      (by norm_num [finalTable, mergeLeft, mergeRow, stockAgg, stockProj, stockKey,
        salesAgg, salesAggFrom, salesProj, salesKey, scoreRow, coerce, toNumericCoerce,
        key2Ord, key3Ord, rowOrd, List.insertionSort, List.orderedInsert,
        List.dedup_cons_of_not_mem, truncInt, roundHalfEven, round1, List.filter,
        List.find?])
  · have h := (C4_forecast_rounding (K := ℕ) 1 [] []).2 3
    rw [h]
    decide

/-- C6: numeric coercion never fails and never drops a row: a
non-numeric or missing cell coerces to the value 0 (not an error, not a
missing value), and the coerced column has the length of its input. -/
theorem C6_coercion_total (col : List Cell) (c : Cell) (_hc : c ∈ col)
    (h : c = Cell.nonNumeric ∨ c = Cell.missing) :
    coerce c = 0 ∧ (col.map coerce).length = col.length := by
  constructor
  · rcases h with h | h <;> rw [h] <;> rfl
  · simp

/-- C6 witness: a missing cell in a two-cell column coerces to 0 and the
column keeps both rows. -/
theorem C6_coercion_total_witness :
    coerce Cell.missing = 0 ∧
    (([Cell.num 3, Cell.missing] : List Cell).map coerce).length = 2 :=
  ⟨(C6_coercion_total [Cell.num 3, Cell.missing] Cell.missing (by simp) (Or.inr rfl)).1,
   (C6_coercion_total [Cell.num 3, Cell.missing] Cell.missing (by simp) (Or.inr rfl)).2⟩

/-- C1 counterexample: one sales row with key (country 1, SKU 100) and an
empty stock table.  The sales aggregation has one key, but the merged
output is empty: the left join is keyed to the stock aggregation, so the
sales key is dropped and the output row count is not the number of sales
keys. -/
theorem C1_counterexample :
    (finalTable (K := ℕ) 1 [⟨50, 100, 1, Cell.num 10⟩] []).length = 0 ∧
    (salesAgg (K := ℕ) [⟨50, 100, 1, Cell.num 10⟩]).length = 1 := by
  constructor
  · rfl
  · norm_num [salesAgg, salesAggFrom, salesProj, salesKey, coerce, toNumericCoerce,
      key2Ord, List.insertionSort, List.orderedInsert, List.dedup_cons_of_not_mem,
      List.filter]

/-- C1 (amended): the left join preserves exactly the keys of the STOCK
aggregation: the output has one row per stock-aggregation row, every
stock key appears in the output, and every output key is a stock key (so
sales-only keys are dropped). -/
theorem C1_join_keys {K : Type} [LinearOrder K] (g : ℚ)
    (ss : List (SalesRow K)) (st : List (StockRow K)) :
    (finalTable g ss st).length = (stockAgg st).length ∧
    (∀ e ∈ stockAgg st, ∃ r ∈ finalTable g ss st,
      r.country = e.country ∧ r.name = e.name ∧ r.sku = e.sku) ∧
    (∀ r ∈ finalTable g ss st, ∃ e ∈ stockAgg st,
      r.country = e.country ∧ r.name = e.name ∧ r.sku = e.sku) := by
  refine ⟨?_, ?_, ?_⟩
  · simp [finalTable, mergeLeft, List.length_insertionSort]
  · intro e he
    refine ⟨scoreRow g (mergeRow (salesAgg ss) e), ?_, rfl, rfl, rfl⟩
    rw [finalTable, List.mem_insertionSort]
    exact List.mem_map_of_mem _ (List.mem_map_of_mem _ he)
  · intro r hr
    rw [finalTable, List.mem_insertionSort] at hr
    obtain ⟨m, hm, rfl⟩ := List.mem_map.mp hr
    rw [mergeLeft] at hm
    obtain ⟨e, he, rfl⟩ := List.mem_map.mp hm
    exact ⟨e, he, rfl, rfl, rfl⟩

/-- C1 witness: a single stock row with key (country 4, name 2, SKU 3)
and no sales rows still yields an output row with that key. -/
theorem C1_join_keys_witness :
    ∃ r ∈ finalTable (K := ℕ) 1 [] [⟨2, 3, 4, Cell.num 5, Cell.num 0, Cell.num 0⟩],
      r.country = 4 ∧ r.name = 2 ∧ r.sku = 3 := by
  refine (C1_join_keys (K := ℕ) 1 [] [⟨2, 3, 4, Cell.num 5, Cell.num 0, Cell.num 0⟩]).2.1
    ⟨4, 2, 3, 5, 0⟩ ?_
  norm_num [stockAgg, stockProj, stockKey, coerce, toNumericCoerce, key3Ord,
    List.insertionSort, List.orderedInsert, List.dedup_cons_of_not_mem, List.filter]

/-- C5: the final table is pairwise ordered by 库销比 ascending and, on
equal ratios, 过去30天总销量 descending; it is a permutation of the
scored merged rows; and the sort is stable: two rows fully tied on both
sort keys keep their pre-sort relative order. -/
theorem C5_sort_order {K : Type} [LinearOrder K] (g : ℚ)
    (ss : List (SalesRow K)) (st : List (StockRow K)) :
    ((finalTable g ss st).Pairwise fun a b =>
      a.ratio < b.ratio ∨ (a.ratio = b.ratio ∧ b.sales30 ≤ a.sales30)) ∧
    (finalTable g ss st).Perm
      ((mergeLeft (stockAgg st) (salesAgg ss)).map (scoreRow g)) ∧
    (∀ a b : SummaryRow K, a.ratio = b.ratio → a.sales30 = b.sales30 →
      List.Sublist [a, b] ((mergeLeft (stockAgg st) (salesAgg ss)).map (scoreRow g)) →
      List.Sublist [a, b] (finalTable g ss st)) := by
  refine ⟨?_, List.perm_insertionSort _ _, ?_⟩
  · exact List.Pairwise.imp (fun h => h) (List.sorted_insertionSort rowOrd _)
  · intro a b hr hs hsub
    exact List.pair_sublist_insertionSort (Or.inr ⟨hr, hs.ge⟩) hsub

/-- C5 witness: two stock-only rows that tie on both sort keys
(ratio 99, sales 0) stay in their pre-sort order in the final table. -/
theorem C5_sort_order_witness :
    List.Sublist
      [(⟨1, 2, 3, 5, 0, 0, 0, 99⟩ : SummaryRow ℕ), ⟨4, 2, 3, 5, 0, 0, 0, 99⟩]
      (finalTable (K := ℕ) 1 []
        [⟨2, 3, 1, Cell.num 5, Cell.num 0, Cell.num 0⟩,
          ⟨2, 3, 4, Cell.num 5, Cell.num 0, Cell.num 0⟩]) := by
  have heval : (mergeLeft
      (stockAgg (K := ℕ) [⟨2, 3, 1, Cell.num 5, Cell.num 0, Cell.num 0⟩,
        ⟨2, 3, 4, Cell.num 5, Cell.num 0, Cell.num 0⟩])
      (salesAgg (K := ℕ) [])).map (scoreRow 1) =
      [⟨1, 2, 3, 5, 0, 0, 0, 99⟩, ⟨4, 2, 3, 5, 0, 0, 0, 99⟩] := by
    norm_num [mergeLeft, mergeRow, stockAgg, stockProj, stockKey, salesAgg,
      salesAggFrom, salesProj, scoreRow, coerce, toNumericCoerce, key3Ord,
      List.insertionSort, List.orderedInsert, List.dedup_cons_of_not_mem,
      truncInt, roundHalfEven, round1, List.filter, List.find?]
  refine (C5_sort_order (K := ℕ) 1 []
    [⟨2, 3, 1, Cell.num 5, Cell.num 0, Cell.num 0⟩,
      ⟨2, 3, 4, Cell.num 5, Cell.num 0, Cell.num 0⟩]).2.2
    ⟨1, 2, 3, 5, 0, 0, 0, 99⟩ ⟨4, 2, 3, 5, 0, 0, 0, 99⟩ rfl rfl ?_
  rw [heval]

/-- C9: a stock-aggregation key with no matching key in the sales
aggregation still produces an output row, with 过去30天总销量 0, 库销比
the sentinel 99.0, and no highlight. -/
theorem C9_stock_only_row {K : Type} [LinearOrder K] (g : ℚ)
    (ss : List (SalesRow K)) (st : List (StockRow K)) (e : StockGroup K)
    (he : e ∈ stockAgg st)
    (hnone : ∀ sg ∈ salesAgg ss, ¬(sg.country = e.country ∧ sg.sku = e.sku)) :
    ∃ r ∈ finalTable g ss st,
      r.country = e.country ∧ r.name = e.name ∧ r.sku = e.sku ∧
      r.sales30 = 0 ∧ r.ratio = 99 ∧
      highlight_low_ratio r = List.replicate 8 "" := by
  have hfind : (salesAgg ss).find?
      (fun s => decide (s.country = e.country ∧ s.sku = e.sku)) = none := by
    rw [List.find?_eq_none]
    intro s hs
    simpa using hnone s hs
  have hm : mergeRow (salesAgg ss) e =
      ⟨e.country, e.name, e.sku, e.fba, e.transitTotal, 0⟩ := by
    simp only [mergeRow, hfind]
  have hmem : scoreRow g (mergeRow (salesAgg ss) e) ∈ finalTable g ss st := by
    rw [finalTable, List.mem_insertionSort]
    exact List.mem_map_of_mem _ (List.mem_map_of_mem _ he)
  refine ⟨scoreRow g (mergeRow (salesAgg ss) e), hmem, ?_⟩
  rw [hm]
  have hs0 : (scoreRow g (⟨e.country, e.name, e.sku, e.fba, e.transitTotal, 0⟩ :
      MergedRow K)).sales30 = 0 := truncInt_zero
  refine ⟨rfl, rfl, rfl, hs0, ?_, ?_⟩
  · show round1 (if (0 : ℚ) < 0 then (e.fba + e.transitTotal) / 0 else 99) = 99
    rw [if_neg (lt_irrefl 0)]
    exact round1_99
  · rw [highlight_low_ratio, if_neg]
    rintro ⟨-, hpos⟩
    rw [hs0] at hpos
    exact lt_irrefl 0 hpos

/-- C9 witness: one stock row with key (4, 2, 3) and an empty sales
table: its output row carries sales 0, ratio 99, empty styling. -/
theorem C9_stock_only_row_witness :
    ∃ r ∈ finalTable (K := ℕ) 1 [] [⟨2, 3, 4, Cell.num 5, Cell.num 0, Cell.num 0⟩],
      r.country = 4 ∧ r.name = 2 ∧ r.sku = 3 ∧ r.sales30 = 0 ∧ r.ratio = 99 ∧
      highlight_low_ratio r = List.replicate 8 "" := by
  refine C9_stock_only_row 1 [] _ ⟨4, 2, 3, 5, 0⟩ ?_ ?_
  · norm_num [stockAgg, stockProj, stockKey, coerce, toNumericCoerce, key3Ord,
      List.insertionSort, List.orderedInsert, List.dedup_cons_of_not_mem, List.filter]
  · intro sg hsg
    have hempty : salesAgg (K := ℕ) [] = [] := rfl
    rw [hempty] at hsg
    exact absurd hsg (List.not_mem_nil sg)

/-- Rows that agree on SKU, 国家 and 销量 (the 品名 column may differ)
project to the same (key, coerced quantity) pairs, because 品名 is not
part of the sales group key and is not aggregated. -/
theorem salesProj_congr {K : Type} (ss1 ss2 : List (SalesRow K))
    (h : List.Forall₂
      (fun r1 r2 => r1.sku = r2.sku ∧ r1.country = r2.country ∧ r1.qty = r2.qty)
      ss1 ss2) :
    salesProj ss1 = salesProj ss2 := by
  induction h with
  | nil => rfl
  | cons h1 _h2 ih =>
      simp only [salesProj, List.map_cons] at ih ⊢
      refine congrArg₂ List.cons ?_ ih
      obtain ⟨hsku, hcountry, hqty⟩ := h1
      simp [salesKey, hsku, hcountry, hqty]

/-- C10: the 品名 column of the sales table has no effect on the output:
two sales tables equal except for 品名 give the same final table and the
same highlighting, the displayed 品名 coming from the stock table only. -/
theorem C10_sales_name_irrelevant {K : Type} [LinearOrder K] (g : ℚ)
    (ss1 ss2 : List (SalesRow K)) (st : List (StockRow K))
    (h : List.Forall₂
      (fun r1 r2 => r1.sku = r2.sku ∧ r1.country = r2.country ∧ r1.qty = r2.qty)
      ss1 ss2) :
    finalTable g ss1 st = finalTable g ss2 st ∧
    (finalTable g ss1 st).map highlight_low_ratio =
      (finalTable g ss2 st).map highlight_low_ratio := by
  have hagg : salesAgg ss1 = salesAgg ss2 := by
    rw [salesAgg, salesAgg, salesProj_congr ss1 ss2 h]
  have ht : finalTable g ss1 st = finalTable g ss2 st := by
    rw [finalTable, finalTable, hagg]
  exact ⟨ht, by rw [ht]⟩

/-- C10 witness: two single-row sales tables differing only in 品名
(11 vs 12) give identical final tables and styling. -/
theorem C10_sales_name_irrelevant_witness :
    finalTable (K := ℕ) 1 [⟨11, 3, 4, Cell.num 10⟩]
        [⟨2, 3, 4, Cell.num 5, Cell.num 0, Cell.num 0⟩] =
      finalTable (K := ℕ) 1 [⟨12, 3, 4, Cell.num 10⟩]
        [⟨2, 3, 4, Cell.num 5, Cell.num 0, Cell.num 0⟩] :=
  (C10_sales_name_irrelevant 1 [⟨11, 3, 4, Cell.num 10⟩] [⟨12, 3, 4, Cell.num 10⟩]
    [⟨2, 3, 4, Cell.num 5, Cell.num 0, Cell.num 0⟩]
    (List.Forall₂.cons ⟨rfl, rfl, rfl⟩ List.Forall₂.nil)).1

/-- C8 counterexample: coercion does not clamp signs, so a sales cell
holding the numeric value -5 yields a negative aggregated quantity: the
claim that every quantity field is non-negative after coercion for all
possible input cells is false. -/
theorem C8_counterexample :
    ∃ sg ∈ salesAgg (K := ℕ) [⟨2, 3, 4, Cell.num (-5)⟩], sg.sales30 < 0 := by
  refine ⟨⟨4, 3, -5⟩, ?_, by norm_num⟩
  norm_num [salesAgg, salesAggFrom, salesProj, salesKey, coerce, toNumericCoerce,
    key2Ord, List.insertionSort, List.orderedInsert, List.dedup_cons_of_not_mem,
    List.filter]

/-- C8 (amended): quantity fields are non-negative after coercion
provided every numeric input cell is non-negative; non-numeric and
missing cells coerce to 0 and so never break non-negativity. -/
theorem C8_nonneg_of_nonneg_inputs {K : Type} [LinearOrder K]
    (ss : List (SalesRow K)) (st : List (StockRow K))
    (hs : ∀ r ∈ ss, ∀ q, r.qty = Cell.num q → 0 ≤ q)
    (ht : ∀ r ∈ st, ∀ q,
      r.fba = Cell.num q ∨ r.inbound = Cell.num q ∨ r.transit = Cell.num q → 0 ≤ q) :
    (∀ sg ∈ salesAgg ss, 0 ≤ sg.sales30) ∧
    (∀ e ∈ stockAgg st, 0 ≤ e.fba ∧ 0 ≤ e.transitTotal) := by
  constructor
  · intro sg hsg
    rw [salesAgg, salesAggFrom] at hsg
    obtain ⟨k, _hk, rfl⟩ := List.mem_map.mp hsg
    apply List.sum_nonneg
    intro x hx
    obtain ⟨p, hp, rfl⟩ := List.mem_map.mp hx
    have hp2 := List.mem_of_mem_filter hp
    rw [salesProj] at hp2
    obtain ⟨r, hr, rfl⟩ := List.mem_map.mp hp2
    exact coerce_nonneg r.qty (hs r hr)
  · intro e he
    rw [stockAgg] at he
    obtain ⟨k, _hk, rfl⟩ := List.mem_map.mp he
    constructor
    · apply List.sum_nonneg
      intro x hx
      obtain ⟨p, hp, rfl⟩ := List.mem_map.mp hx
      have hp2 := List.mem_of_mem_filter hp
      rw [stockProj] at hp2
      obtain ⟨r, hr, rfl⟩ := List.mem_map.mp hp2
      exact coerce_nonneg r.fba fun q hq => ht r hr q (Or.inl hq)
    · apply List.sum_nonneg
      intro x hx
      obtain ⟨p, hp, rfl⟩ := List.mem_map.mp hx
      have hp2 := List.mem_of_mem_filter hp
      rw [stockProj] at hp2
      obtain ⟨r, hr, rfl⟩ := List.mem_map.mp hp2
      exact add_nonneg
        (coerce_nonneg r.inbound fun q hq => ht r hr q (Or.inr (Or.inl hq)))
        (coerce_nonneg r.transit fun q hq => ht r hr q (Or.inr (Or.inr hq)))

/-- C8 witness: a non-negative numeric sales cell and a stock row mixing
a missing FBA cell, inbound 1 and non-numeric in-transit give
non-negative aggregates. -/
theorem C8_nonneg_of_nonneg_inputs_witness :
    (∀ sg ∈ salesAgg (K := ℕ) [⟨2, 3, 4, Cell.num 10⟩], 0 ≤ sg.sales30) ∧
    (∀ e ∈ stockAgg (K := ℕ) [⟨2, 3, 4, Cell.missing, Cell.num 1, Cell.nonNumeric⟩],
      0 ≤ e.fba ∧ 0 ≤ e.transitTotal) := by
  apply C8_nonneg_of_nonneg_inputs
  · intro r hr q hq
    rw [List.mem_singleton] at hr
    subst hr
    injection hq with hq10
    rw [← hq10]
    norm_num
  · intro r hr q hq
    rw [List.mem_singleton] at hr
    subst hr
    rcases hq with hq | hq | hq
    · exact absurd hq (by simp)
    · injection hq with hq1
      rw [← hq1]
      norm_num
    · exact absurd hq (by simp)

/-- C7: for a non-spreadsheet file, `read_file` tries utf-8, gbk, utf-16
in that exact order, returns the table of the first attempt that
succeeds, and returns `none` when all three attempts fail. -/
theorem C7_encoding_chain {α : Type} (readExcel : List ℕ → α)
    (readCsv : String → List ℕ → Option α) (f : UploadedFile)
    (h1 : endswith f.name ".xlsx" = false) (h2 : endswith f.name ".xls" = false) :
    (∀ t, read_file readExcel readCsv (some f) = some t →
      ∃ i : Fin encList.length, readCsv (encList.get i) f.bytes = some t ∧
        ∀ j : Fin encList.length, j < i → readCsv (encList.get j) f.bytes = none) ∧
    ((∀ e ∈ encList, readCsv e f.bytes = none) →
      read_file readExcel readCsv (some f) = none) := by
  have hread : read_file readExcel readCsv (some f) =
      firstSuccess [readCsv "utf-8" f.bytes, readCsv "gbk" f.bytes,
        readCsv "utf-16" f.bytes] := by
    simp [read_file, h1, h2, encList]
  constructor
  · intro t ht
    rw [hread] at ht
    cases hu : readCsv "utf-8" f.bytes with
    | some t0 =>
        rw [hu] at ht
        simp only [firstSuccess] at ht
        refine ⟨⟨0, by norm_num [encList]⟩, ?_, ?_⟩
        · show readCsv "utf-8" f.bytes = some t
          rw [hu]
          exact ht
        · intro j hj
          simp only [Fin.lt_def] at hj
          exact absurd hj (Nat.not_lt_zero _)
    | none =>
        rw [hu] at ht
        simp only [firstSuccess] at ht
        cases hg : readCsv "gbk" f.bytes with
        | some t0 =>
            rw [hg] at ht
            simp only [firstSuccess] at ht
            refine ⟨⟨1, by norm_num [encList]⟩, ?_, ?_⟩
            · show readCsv "gbk" f.bytes = some t
              rw [hg]
              exact ht
            · intro j hj
              simp only [Fin.lt_def] at hj
              have hj1 : j.val < 1 := hj
              have hjv : j.val = 0 := by omega
              have hj0 : j = ⟨0, by norm_num [encList]⟩ := Fin.ext hjv
              rw [hj0]
              exact hu
        | none =>
            rw [hg] at ht
            simp only [firstSuccess] at ht
            cases hv : readCsv "utf-16" f.bytes with
            | some t0 =>
                rw [hv] at ht
                simp only [firstSuccess] at ht
                refine ⟨⟨2, by norm_num [encList]⟩, ?_, ?_⟩
                · show readCsv "utf-16" f.bytes = some t
                  rw [hv]
                  exact ht
                · intro j hj
                  simp only [Fin.lt_def] at hj
                  have hj2 : j.val < 2 := hj
                  have hj01 : j.val = 0 ∨ j.val = 1 := by omega
                  rcases hj01 with hj0 | hj0
                  · have hjeq : j = ⟨0, by norm_num [encList]⟩ := Fin.ext hj0
                    rw [hjeq]
                    exact hu
                  · have hjeq : j = ⟨1, by norm_num [encList]⟩ := Fin.ext hj0
                    rw [hjeq]
                    exact hg
            | none =>
                rw [hv] at ht
                simp only [firstSuccess] at ht
                exact Option.noConfusion ht
  · intro hall
    rw [hread, hall "utf-8" (by simp [encList]), hall "gbk" (by simp [encList]),
      hall "utf-16" (by simp [encList])]
    rfl

/-- A concrete csv reader for the C7 witness: parsing succeeds under the
gbk attempt only. -/
def wReadCsv : String → List ℕ → Option ℕ :=
  fun enc _ => if enc = "gbk" then some 7 else none

/-- C7 witness: for a `.csv` upload whose parse succeeds only under gbk,
the loader returns that table, and the earlier utf-8 attempt failed. -/
theorem C7_encoding_chain_witness :
    ∃ i : Fin encList.length, wReadCsv (encList.get i) [] = some 7 ∧
      ∀ j : Fin encList.length, j < i → wReadCsv (encList.get j) [] = none :=
  (C7_encoding_chain (fun _ => 0) wReadCsv ⟨"data.csv", []⟩ (by decide) (by decide)).1
    7 (by decide)
